import Mathlib

set_option linter.unusedVariables false

/-!
Verification of the GEOMI slope-overlay core.

The development shallowly embeds the slope-cells effect of
`frontend/src/components/MapView.jsx` (classification loop, grid
tessellation, rectangle-drawing mouseup, and the slope-cells
source/layer upsert) and the range-table handlers of
`SlopeMapPanel.jsx`.  JS numbers are modelled as exact rationals (ℚ);
JS number-to-string rendering is modelled by the injective rendering
`ratStr`.
-/

/-- A classification range row `{min, max, color, label}` as held in the
editable table of `SlopeMapPanel.jsx`. -/
structure Range where
  min : ℚ
  max : ℚ
  color : String
  label : String
deriving DecidableEq

/-- `DEFAULT_RANGES` from `SlopeMapPanel.jsx`. -/
def DEFAULT_RANGES : List Range := [
  ⟨0, 3, "#38a800", "0 – 3%"⟩,
  ⟨3, 7, "#267300", "3 – 7%"⟩,
  ⟨7, 12, "#a8a800", "7 – 12%"⟩,
  ⟨12, 25, "#005500", "12 – 25%"⟩,
  ⟨25, 50, "#ffff00", "25 – 50%"⟩,
  ⟨50, 75, "#ff8c00", "50 – 75%"⟩,
  ⟨75, 999, "#ff0000", "> 75%"⟩]

/-- The neutral-gray fallback `'#888888'` that initialises `fillColor` in the
MapView classification loop. -/
def fallbackColor : String := "#888888"

/-- The first-match walk of the MapView classification loop:
`for (const rng of ranges) if (val >= rng.min && val < rng.max) break`. -/
def firstMatch (val : ℚ) : List Range → String
  | [] => fallbackColor
  | r :: rs => if r.min ≤ val ∧ val < r.max then r.color else firstMatch val rs

/-- The full classification of one cell value (MapView.jsx, slope-cells loop):
the first-match walk, then the unconditional catch-all re-check
`if (val >= ranges[ranges.length - 1]?.min) fillColor = ranges[...]?.color || fillColor`.
On an empty list the optional-chained `min` is `undefined` and the JS
comparison is false, modelled by the `none` branch; the JS `|| fillColor`
keeps the walk's color when the last range's color is the empty string. -/
def classify (val : ℚ) (ranges : List Range) : String :=
  let fillColor := firstMatch val ranges
  match ranges.getLast? with
  | some lastRng =>
      if lastRng.min ≤ val then
        (if lastRng.color = "" then fillColor else lastRng.color)
      else fillColor
  | none => fillColor

/-- A GeoJSON-like feature pushed by the tessellation loop: one polygon
ring list, a rounded slope property and a classified color property. -/
structure Feature where
  coords : List (List (ℚ × ℚ))
  slope : ℚ
  color : String
deriving DecidableEq

/-- JS `Math.round(x)` (round half towards +∞): `⌊x + 1/2⌋`. -/
def jsRound (x : ℚ) : ℤ := ⌊x + 1/2⌋

/-- `Math.round(val * 10) / 10`: the cell value rounded to one decimal. -/
def roundTenth (val : ℚ) : ℚ := (jsRound (val * 10) : ℚ) / 10

/-- The feature pushed for grid cell (row `r`, column `c`) with value `val`:
origin `(x0, y0) = (minx + c·dx, miny + r·dy)` and the closed 5-point ring,
with `properties.slope` and `properties.color` as in MapView.jsx. -/
def cellFeature (mx my dx dy : ℚ) (ranges : List Range) (r c : ℕ) (val : ℚ) : Feature :=
  { coords := [[
      (mx + (c : ℚ) * dx, my + (r : ℚ) * dy),
      (mx + (c : ℚ) * dx + dx, my + (r : ℚ) * dy),
      (mx + (c : ℚ) * dx + dx, my + (r : ℚ) * dy + dy),
      (mx + (c : ℚ) * dx, my + (r : ℚ) * dy + dy),
      (mx + (c : ℚ) * dx, my + (r : ℚ) * dy)]],
    slope := roundTenth val,
    color := classify val ranges }

/-- The inner column loop `for (let c = 0; c < slopeGrid[r].length; c++)`,
started at column index `c`. -/
def tessRow (mx my dx dy : ℚ) (ranges : List Range) (r : ℕ) : ℕ → List ℚ → List Feature
  | _, [] => []
  | c, val :: rest =>
      cellFeature mx my dx dy ranges r c val :: tessRow mx my dx dy ranges r (c + 1) rest

/-- The outer row loop `for (let r = 0; r < slopeGrid.length; r++)`,
started at row index `r`. -/
def tessRows (mx my dx dy : ℚ) (ranges : List Range) : ℕ → List (List ℚ) → List Feature
  | _, [] => []
  | r, row :: rest =>
      tessRow mx my dx dy ranges r 0 row ++ tessRows mx my dx dy ranges (r + 1) rest

/-- `const n = grid_size || slopeGrid.length` (JS `||`: `0` and `undefined`
both fall back to the observed row count). -/
def nVal (gridSize : Option ℕ) (grid : List (List ℚ)) : ℕ :=
  match gridSize with
  | some g => if g = 0 then grid.length else g
  | none => grid.length

/-- The slope-cells tessellation of MapView.jsx, after the bbox string has
been split into the four numbers: `dx = (maxx-minx)/n`, `dy = (maxy-miny)/n`,
then the nested cell loop. -/
def tessellate (grid : List (List ℚ)) (minx miny maxx maxy : ℚ)
    (gridSize : Option ℕ) (ranges : List Range) : List Feature :=
  let n := nVal gridSize grid
  let dx := (maxx - minx) / (n : ℚ)
  let dy := (maxy - miny) / (n : ℚ)
  tessRows minx miny dx dy ranges 0 grid

/-- C1: for a non-empty range table whose last entry carries a real
(non-empty) RGB color string, every value at or above the last range's
lower bound classifies to the last range's color — regardless of the last
range's upper bound, and even when the value also lies inside an earlier
range's half-open interval, because the catch-all re-check runs after the
first-match walk and overrides its result. -/
theorem classify_catchall (v : ℚ) (ranges : List Range) (h : ranges ≠ [])
    (hc : (ranges.getLast h).color ≠ "") (hv : (ranges.getLast h).min ≤ v) :
    classify v ranges = (ranges.getLast h).color := by
  unfold classify
  rw [List.getLast?_eq_getLast_of_ne_nil h]
  simp [hv, hc]

/-- A table for the C1 witness: the value 6 lies inside the first range's
interval [0, 10) and at/above the last range's min 5. -/
def c1Ranges : List Range := [⟨0, 10, "#aaaaaa", "a"⟩, ⟨5, 7, "#bbbbbb", "b"⟩]

/-- C1 witness: value 6 matches the first range of `c1Ranges` in the walk,
yet classifies to the last range's color. -/
theorem classify_catchall_witness : classify 6 c1Ranges = "#bbbbbb" :=
  (classify_catchall 6 c1Ranges (by decide) (by decide) (by decide)).trans (by decide)

/-- The walk returns the color of the range at index `i` when that range
matches and no earlier range does. -/
theorem firstMatch_of_get? (v : ℚ) :
    ∀ (l : List Range) (i : ℕ) (ri : Range), l.get? i = some ri →
      ri.min ≤ v → v < ri.max →
      (∀ j rj, j < i → l.get? j = some rj → ¬(rj.min ≤ v ∧ v < rj.max)) →
      firstMatch v l = ri.color := by
  intro l
  induction l with
  | nil => intro i ri h; simp at h
  | cons r rs ih =>
    intro i ri hget h1 h2 hpre
    cases i with
    | zero =>
      simp only [List.get?_cons_zero, Option.some.injEq] at hget
      subst hget
      simp [firstMatch, h1, h2]
    | succ i =>
      have h0 : ¬(r.min ≤ v ∧ v < r.max) := hpre 0 r (Nat.succ_pos i) rfl
      simp only [firstMatch, if_neg h0]
      exact ih i ri hget h1 h2 fun j rj hj hg => hpre (j + 1) rj (Nat.succ_lt_succ hj) hg

/-- In a chain of ranges where each range's max is at most the next range's
min, a head bound propagates to every element. -/
theorem chain_head_le (v : ℚ) :
    ∀ (l : List Range) (x : Range), l.Chain' (fun a b => a.max ≤ b.min) →
      (∀ r ∈ l, r.min ≤ r.max) →
      (∀ b ∈ l.head?, x.max ≤ b.min) →
      ∀ k rk, l.get? k = some rk → x.max ≤ rk.min := by
  intro l
  induction l with
  | nil => intro x _ _ _ k rk h; simp at h
  | cons b bs ih =>
    intro x hc hw hhd k rk hk
    rw [List.chain'_cons'] at hc
    cases k with
    | zero =>
      simp only [List.get?_cons_zero, Option.some.injEq] at hk
      rw [← hk]
      exact hhd _ (by simp)
    | succ k =>
      have hxb : x.max ≤ b.min := hhd b (by simp)
      have hbb : b.min ≤ b.max := hw b (by simp)
      have hrest := ih b hc.2 (fun r hr => hw r (List.mem_cons_of_mem b hr)) hc.1 k rk hk
      exact le_trans (le_trans hxb hbb) hrest

/-- In a chain of well-formed ranges, an earlier range's max is at most a
later range's min. -/
theorem chain_max_le_min :
    ∀ (l : List Range), l.Chain' (fun a b => a.max ≤ b.min) →
      (∀ r ∈ l, r.min ≤ r.max) →
      ∀ i j ri rj, i < j → l.get? i = some ri → l.get? j = some rj →
        ri.max ≤ rj.min := by
  intro l
  induction l with
  | nil => intro _ _ i j ri rj _ h; simp at h
  | cons r rs ih =>
    intro hc hw i j ri rj hij hi hj
    rw [List.chain'_cons'] at hc
    cases i with
    | zero =>
      simp only [List.get?_cons_zero, Option.some.injEq] at hi
      rw [← hi]
      cases j with
      | zero => omega
      | succ j =>
        exact chain_head_le 0 rs r hc.2
          (fun x hx => hw x (List.mem_cons_of_mem r hx)) hc.1 j rj hj
    | succ i =>
      cases j with
      | zero => omega
      | succ j =>
        exact ih hc.2 (fun x hx => hw x (List.mem_cons_of_mem r hx)) i j ri rj
          (Nat.succ_lt_succ_iff.mp hij) hi hj

/-- C5: for a range table sorted ascending (each range's max at most the
next range's min, each range well-formed) and an index `i` that is not the
last, every value in the half-open interval `[ranges[i].min, ranges[i].max)`
classifies to `ranges[i].color`: the walk visits the list in order, the
first matching range wins, and the catch-all cannot fire because the value
is strictly below the last range's min. -/
theorem classify_first_match (v : ℚ) (ranges : List Range) (i : ℕ) (ri : Range)
    (hsorted : ranges.Chain' (fun a b => a.max ≤ b.min))
    (hwf : ∀ r ∈ ranges, r.min ≤ r.max)
    (hget : ranges.get? i = some ri)
    (hlast : i + 1 < ranges.length)
    (h1 : ri.min ≤ v) (h2 : v < ri.max) :
    classify v ranges = ri.color := by
  obtain ⟨rl, hrl⟩ : ∃ rl, ranges.get? (ranges.length - 1) = some rl := by
    cases hx : ranges.get? (ranges.length - 1) with
    | none =>
      have := List.get?_eq_none.mp hx
      omega
    | some rl => exact ⟨rl, rfl⟩
  have hchain : ri.max ≤ rl.min :=
    chain_max_le_min ranges hsorted hwf i (ranges.length - 1) ri rl (by omega) hget hrl
  have hvlast : v < rl.min := lt_of_lt_of_le h2 hchain
  have hfm : firstMatch v ranges = ri.color := by
    refine firstMatch_of_get? v ranges i ri hget h1 h2 fun j rj hj hg hmatch => ?_
    have : rj.max ≤ ri.min := chain_max_le_min ranges hsorted hwf j i rj ri hj hg hget
    exact absurd hmatch.2 (not_lt.mpr (le_trans this h1))
  have hlne : ranges.getLast? = some rl := by
    rw [List.getLast?_eq_get?]
    exact hrl
  unfold classify
  rw [hlne]
  simp [hfm, not_le.mpr hvlast]

/-- C5 witness: in the default table, 8 lies in the third bucket [7, 12)
and classifies to its color. -/
theorem classify_first_match_witness : classify 8 DEFAULT_RANGES = "#a8a800" :=
  classify_first_match 8 DEFAULT_RANGES 2 ⟨7, 12, "#a8a800", "7 – 12%"⟩
    (by simp only [DEFAULT_RANGES, List.chain'_cons, List.chain'_singleton]; decide)
    (by decide) (by decide) (by decide) (by decide) (by decide)

/-- Every feature produced by the inner loop is a cell feature, so its
color comes from `classify`. -/
theorem tessRow_color (mx my dx dy : ℚ) (ranges : List Range) (r : ℕ) :
    ∀ (c : ℕ) (row : List ℚ) (f : Feature), f ∈ tessRow mx my dx dy ranges r c row →
      ∃ val, f.color = classify val ranges := by
  intro c row
  induction row generalizing c with
  | nil => intro f hf; simp [tessRow] at hf
  | cons vhd vtl ih =>
    intro f hf
    rw [tessRow] at hf
    rcases List.mem_cons.mp hf with h | h
    · exact ⟨vhd, by rw [h]; rfl⟩
    · exact ih (c + 1) f h

/-- Every feature produced by the row loop has a `classify` color. -/
theorem tessRows_color (mx my dx dy : ℚ) (ranges : List Range) :
    ∀ (r : ℕ) (grid : List (List ℚ)) (f : Feature),
      f ∈ tessRows mx my dx dy ranges r grid →
      ∃ val, f.color = classify val ranges := by
  intro r grid
  induction grid generalizing r with
  | nil => intro f hf; simp [tessRows] at hf
  | cons row rest ih =>
    intro f hf
    rw [tessRows] at hf
    rcases List.mem_append.mp hf with h | h
    · exact tessRow_color mx my dx dy ranges r 0 row f h
    · exact ih (r + 1) f h

/-- C6: with an empty (or absent, since MapView substitutes `[]`) range
table, `classify` returns the fixed neutral-gray fallback for every value
and never fails, and consequently every cell of any tessellated grid is
classified to the fallback color. -/
theorem classify_empty_default (v : ℚ) (grid : List (List ℚ))
    (minx miny maxx maxy : ℚ) (gs : Option ℕ) :
    classify v [] = fallbackColor ∧
    (tessellate grid minx miny maxx maxy gs []).all
      (fun f => f.color == fallbackColor) = true := by
  constructor
  · rfl
  · rw [List.all_eq_true]
    intro f hf
    obtain ⟨val, hval⟩ := tessRows_color _ _ _ _ [] 0 grid f hf
    have : f.color = fallbackColor := hval
    simp [this]

/-- The inner loop yields exactly one feature per cell of its row. -/
theorem tessRow_length (mx my dx dy : ℚ) (ranges : List Range) (r : ℕ) :
    ∀ (c : ℕ) (row : List ℚ),
      (tessRow mx my dx dy ranges r c row).length = row.length := by
  intro c row
  induction row generalizing c with
  | nil => rfl
  | cons vhd vtl ih => simp [tessRow, ih]

/-- The row loop yields exactly one feature per present cell. -/
theorem tessRows_length (mx my dx dy : ℚ) (ranges : List Range) :
    ∀ (r : ℕ) (grid : List (List ℚ)),
      (tessRows mx my dx dy ranges r grid).length = (grid.map List.length).sum := by
  intro r grid
  induction grid generalizing r with
  | nil => rfl
  | cons row rest ih =>
    simp [tessRows, tessRow_length, ih]

/-- Each feature of the inner loop, by position. -/
theorem tessRow_get? (mx my dx dy : ℚ) (ranges : List Range) (r : ℕ) :
    ∀ (row : List ℚ) (c0 c : ℕ),
      (tessRow mx my dx dy ranges r c0 row).get? c =
        (row.get? c).map (cellFeature mx my dx dy ranges r (c0 + c)) := by
  intro row
  induction row with
  | nil => intro c0 c; simp [tessRow]
  | cons vhd vtl ih =>
    intro c0 c
    cases c with
    | zero => simp [tessRow]
    | succ c =>
      rw [tessRow]
      simp only [List.get?_cons_succ]
      rw [ih (c0 + 1) c]
      have : c0 + 1 + c = c0 + (c + 1) := by omega
      rw [this]

/-- A row found at index `r` contributes all its features to the row
loop's output. -/
theorem tessRows_mem (mx my dx dy : ℚ) (ranges : List Range) :
    ∀ (grid : List (List ℚ)) (r0 r : ℕ) (row : List ℚ), grid.get? r = some row →
      ∀ f ∈ tessRow mx my dx dy ranges (r0 + r) 0 row,
        f ∈ tessRows mx my dx dy ranges r0 grid := by
  intro grid
  induction grid with
  | nil => intro r0 r row h; simp at h
  | cons hd tl ih =>
    intro r0 r row h f hf
    cases r with
    | zero =>
      simp only [List.get?_cons_zero, Option.some.injEq] at h
      rw [tessRows]
      apply List.mem_append_left
      rw [h]
      simpa using hf
    | succ r =>
      simp only [List.get?_cons_succ] at h
      rw [tessRows]
      apply List.mem_append_right
      have harith : r0 + (r + 1) = (r0 + 1) + r := by omega
      rw [harith] at hf
      exact ih (r0 + 1) r row h f hf

/-- C7: tessellation of any grid — ragged rows included — completes with
exactly one feature per actually-present cell (the output length is the sum
of the row lengths), and every present cell's feature appears in the
output; cells missing from short rows are simply skipped. -/
theorem tessellate_ragged_total (grid : List (List ℚ)) (minx miny maxx maxy : ℚ)
    (gs : Option ℕ) (ranges : List Range) :
    (tessellate grid minx miny maxx maxy gs ranges).length = (grid.map List.length).sum ∧
    (∀ r c row val, grid.get? r = some row → row.get? c = some val →
      cellFeature minx miny ((maxx - minx) / (nVal gs grid : ℚ))
          ((maxy - miny) / (nVal gs grid : ℚ)) ranges r c val
        ∈ tessellate grid minx miny maxx maxy gs ranges) := by
  constructor
  · exact tessRows_length _ _ _ _ _ 0 grid
  · intro r c row val hr hc
    apply tessRows_mem _ _ _ _ _ grid 0 r row hr
    have hg := tessRow_get? minx miny ((maxx - minx) / (nVal gs grid : ℚ))
      ((maxy - miny) / (nVal gs grid : ℚ)) ranges (0 + r) row 0 c
    rw [hc] at hg
    simp only [Nat.zero_add, Option.map_some'] at hg
    have := List.get?_mem hg
    simpa using this

/-- A ragged grid for the C7 witness: row 0 has one cell, row 1 has two. -/
def g7 : List (List ℚ) := [[1], [2, 3]]

/-- C7 witness: the ragged grid `g7` tessellates to 3 features, one per
present cell, and the feature of cell (1,1) is among them. -/
theorem tessellate_ragged_total_witness :
    (tessellate g7 0 0 2 2 none []).length = 3 ∧
    cellFeature 0 0 ((2 - 0) / (nVal none g7 : ℚ)) ((2 - 0) / (nVal none g7 : ℚ)) [] 1 1 3
      ∈ tessellate g7 0 0 2 2 none [] := by
  refine ⟨((tessellate_ragged_total g7 0 0 2 2 none []).1).trans (by decide), ?_⟩
  exact (tessellate_ragged_total g7 0 0 2 2 none []).2 1 1 [2, 3] 3 (by decide) (by decide)

/-- Position of each feature in the row loop's output when every row has
the uniform length `n`. -/
theorem tessRows_get?_uniform (mx my dx dy : ℚ) (ranges : List Range) (n : ℕ) :
    ∀ (grid : List (List ℚ)), (∀ row ∈ grid, row.length = n) →
      ∀ (r0 r c : ℕ), c < n →
        (tessRows mx my dx dy ranges r0 grid).get? (r * n + c) =
          (grid.get? r).bind
            (fun row => (row.get? c).map (cellFeature mx my dx dy ranges (r0 + r) c)) := by
  intro grid
  induction grid with
  | nil => intro _ r0 r c hc; simp [tessRows]
  | cons row rest ih =>
    intro hrows r0 r c hc
    rw [tessRows]
    have hlen : row.length = n := hrows row (by simp)
    cases r with
    | zero =>
      have hlt : 0 * n + c < (tessRow mx my dx dy ranges r0 0 row).length := by
        rw [tessRow_length, hlen]; omega
      rw [List.get?_append hlt]
      simp only [Nat.zero_mul, Nat.zero_add]
      rw [tessRow_get?]
      simp
    | succ r =>
      have hge : (tessRow mx my dx dy ranges r0 0 row).length ≤ (r + 1) * n + c := by
        rw [tessRow_length, hlen, Nat.succ_mul]; omega
      rw [List.get?_append_right hge]
      rw [tessRow_length, hlen]
      have harith : (r + 1) * n + c - n = r * n + c := by rw [Nat.succ_mul]; omega
      rw [harith]
      rw [ih (fun x hx => hrows x (by simp [hx])) (r0 + 1) r c hc]
      simp only [List.get?_cons_succ]
      have : r0 + 1 + r = r0 + (r + 1) := by omega
      rw [this]

/-- C2: tessellating an n×n grid over a valid bbox yields exactly n²
features; the feature of row r, column c sits at index r·n+c and is the
closed 5-point ring with origin (minx+c·dx, miny+r·dy), carrying the cell
value rounded to one decimal as `slope` and `classify value ranges` as
`color`; cell (0,0)'s lower-left corner is exactly (minx,miny) and cell
(n−1,n−1)'s upper-right corner is exactly (maxx,maxy). -/
theorem tessellate_grid_spec (grid : List (List ℚ)) (minx miny maxx maxy : ℚ)
    (gs : Option ℕ) (ranges : List Range) (n : ℕ)
    (hn : nVal gs grid = n) (hlen : grid.length = n)
    (hrows : ∀ row ∈ grid, row.length = n) (hpos : 0 < n)
    (hx : minx < maxx) (hy : miny < maxy) :
    (tessellate grid minx miny maxx maxy gs ranges).length = n * n ∧
    (∀ r c val, r < n → c < n →
      (grid.get? r).bind (fun row => row.get? c) = some val →
      (tessellate grid minx miny maxx maxy gs ranges).get? (r * n + c) =
        some { coords := [[
            (minx + (c : ℚ) * ((maxx - minx) / (n : ℚ)),
             miny + (r : ℚ) * ((maxy - miny) / (n : ℚ))),
            (minx + (c : ℚ) * ((maxx - minx) / (n : ℚ)) + (maxx - minx) / (n : ℚ),
             miny + (r : ℚ) * ((maxy - miny) / (n : ℚ))),
            (minx + (c : ℚ) * ((maxx - minx) / (n : ℚ)) + (maxx - minx) / (n : ℚ),
             miny + (r : ℚ) * ((maxy - miny) / (n : ℚ)) + (maxy - miny) / (n : ℚ)),
            (minx + (c : ℚ) * ((maxx - minx) / (n : ℚ)),
             miny + (r : ℚ) * ((maxy - miny) / (n : ℚ)) + (maxy - miny) / (n : ℚ)),
            (minx + (c : ℚ) * ((maxx - minx) / (n : ℚ)),
             miny + (r : ℚ) * ((maxy - miny) / (n : ℚ)))]],
               slope := roundTenth val,
               color := classify val ranges }) ∧
    (minx + ((0 : ℕ) : ℚ) * ((maxx - minx) / (n : ℚ)) = minx ∧
     miny + ((0 : ℕ) : ℚ) * ((maxy - miny) / (n : ℚ)) = miny) ∧
    (minx + ((n - 1 : ℕ) : ℚ) * ((maxx - minx) / (n : ℚ)) + (maxx - minx) / (n : ℚ) = maxx ∧
     miny + ((n - 1 : ℕ) : ℚ) * ((maxy - miny) / (n : ℚ)) + (maxy - miny) / (n : ℚ) = maxy) := by
  have hn0 : (n : ℚ) ≠ 0 := Nat.cast_ne_zero.mpr (by omega)
  refine ⟨?_, ?_, ⟨by push_cast; ring, by push_cast; ring⟩, ⟨?_, ?_⟩⟩
  · show (tessRows minx miny _ _ ranges 0 grid).length = n * n
    rw [tessRows_length]
    have : grid.map List.length = List.replicate n n := by
      rw [List.eq_replicate]
      exact ⟨by simpa using hlen, by simpa using hrows⟩
    rw [this]
    simp [List.sum_replicate, smul_eq_mul]
  · intro r c val hr hc hval
    show (tessRows minx miny ((maxx - minx) / (nVal gs grid : ℚ))
      ((maxy - miny) / (nVal gs grid : ℚ)) ranges 0 grid).get? (r * n + c) = _
    rw [hn]
    rw [tessRows_get?_uniform minx miny _ _ ranges n grid hrows 0 r c hc]
    cases hrow : grid.get? r with
    | none => rw [hrow] at hval; simp at hval
    | some row =>
      rw [hrow] at hval
      simp only [Option.some_bind] at hval ⊢
      rw [hval]
      simp only [Option.map_some', Nat.zero_add]
      rfl
  · rw [show ((n - 1 : ℕ) : ℚ) = (n : ℚ) - 1 by
      push_cast [Nat.cast_sub (by omega : 1 ≤ n)]; ring]
    field_simp
    ring
  · rw [show ((n - 1 : ℕ) : ℚ) = (n : ℚ) - 1 by
      push_cast [Nat.cast_sub (by omega : 1 ≤ n)]; ring]
    field_simp
    ring

/-- A 2×2 grid for the C2 witness. -/
def grid2 : List (List ℚ) := [[1, 2], [3, 4]]

/-- C2 witness: the 2×2 grid over bbox (0,0,2,2) yields 4 features, and the
feature of cell (1,1) sits at index 3 with the expected ring, slope and
color. -/
theorem tessellate_grid_spec_witness :
    (tessellate grid2 0 0 2 2 none []).length = 2 * 2 ∧
    (tessellate grid2 0 0 2 2 none []).get? 3 =
      some { coords := [[(1, 1), (2, 1), (2, 2), (1, 2), (1, 1)]],
             slope := 4, color := "#888888" } := by
  have h := tessellate_grid_spec grid2 0 0 2 2 none [] 2 rfl rfl
    (by decide) (by decide) (by decide) (by decide)
  refine ⟨h.1, ?_⟩
  have h2 := h.2.1 1 1 4 (by decide) (by decide) (by decide)
  rw [show (1 * 2 + 1 : ℕ) = 3 from rfl] at h2
  rw [h2]
  norm_num [roundTenth, jsRound, classify, firstMatch, fallbackColor,
    Feature.mk.injEq, Prod.ext_iff]

/-- A geographic point as produced by `map.unproject` (lng/lat degrees). -/
structure Point where
  lng : ℚ
  lat : ℚ
deriving DecidableEq

/-- A committed bounding box `(minx, miny, maxx, maxy)`. -/
structure Bbox where
  minX : ℚ
  minY : ℚ
  maxX : ℚ
  maxY : ℚ
deriving DecidableEq

/-- Injective stand-in for JS number-to-string rendering (exact value,
no rounding). -/
def ratStr (q : ℚ) : String :=
  if q.den = 1 then toString q.num else toString q.num ++ "/" ++ toString q.den

/-- The committed-bbox template literal of the mouseup handler. -/
def bboxString (b : Bbox) : String :=
  ratStr b.minX ++ "," ++ ratStr b.minY ++ "," ++ ratStr b.maxX ++ "," ++ ratStr b.maxY

/-- The `mouseup` handler of the rectangle-drawing effect (MapView.jsx):
given the draw session (`drawStartRef.current`) and the unprojected release
point, clear the session, normalize the corner pair with min/max, and
commit only when both sides exceed 0.001 degrees.  The result is the pair
(new session state, committed bbox if any); an absent session returns
unchanged with no commit. -/
def mouseup (drawStart : Option Point) (e : Point) : Option Point × Option Bbox :=
  match drawStart with
  | none => (none, none)
  | some start =>
      let minx := min start.lng e.lng
      let miny := min start.lat e.lat
      let maxx := max start.lng e.lng
      let maxy := max start.lat e.lat
      if 1/1000 < |maxx - minx| ∧ 1/1000 < |maxy - miny| then
        (none, some ⟨minx, miny, maxx, maxy⟩)
      else (none, none)

/-- The payload passed to `onRectangleDrawn` when a commit happens. -/
def mouseupEmit (drawStart : Option Point) (e : Point) : Option String :=
  ((mouseup drawStart e).2).map bboxString

/-- C3: ending a gesture started at `s` at point `p` commits a bbox iff
both |Δlng| and |Δlat| exceed 0.001; a committed bbox is the min/max
normalization of the two corners (hence minX < maxX and minY < maxY) and is
emitted as the comma-joined rendering of its four exact coordinates; in
every case the session is cleared and no error is possible. -/
theorem mouseup_spec (s p : Point) :
    (mouseup (some s) p).1 = none ∧
    ((mouseup (some s) p).2.isSome ↔
      (1/1000 < |p.lng - s.lng| ∧ 1/1000 < |p.lat - s.lat|)) ∧
    (∀ b, (mouseup (some s) p).2 = some b →
      b = ⟨min s.lng p.lng, min s.lat p.lat, max s.lng p.lng, max s.lat p.lat⟩ ∧
      b.minX < b.maxX ∧ b.minY < b.maxY ∧
      mouseupEmit (some s) p = some (bboxString b)) := by
  have hx : |max s.lng p.lng - min s.lng p.lng| = |p.lng - s.lng| := by
    rw [max_sub_min_eq_abs, abs_sub_comm]
    exact abs_abs _
  have hy : |max s.lat p.lat - min s.lat p.lat| = |p.lat - s.lat| := by
    rw [max_sub_min_eq_abs, abs_sub_comm]
    exact abs_abs _
  by_cases hcond : 1/1000 < |max s.lng p.lng - min s.lng p.lng| ∧
      1/1000 < |max s.lat p.lat - min s.lat p.lat|
  · have hm : mouseup (some s) p =
        (none, some ⟨min s.lng p.lng, min s.lat p.lat, max s.lng p.lng, max s.lat p.lat⟩) := by
      simp only [mouseup]
      rw [if_pos hcond]
    refine ⟨by rw [hm], ?_, ?_⟩
    · rw [hm]
      simp only [Option.isSome_some, true_iff]
      exact ⟨hx ▸ hcond.1, hy ▸ hcond.2⟩
    · intro b hb
      rw [hm] at hb
      simp only [Option.some.injEq] at hb
      subst hb
      have hxlt : min s.lng p.lng < max s.lng p.lng := by
        rcases le_or_lt (max s.lng p.lng) (min s.lng p.lng) with hle | hlt
        · exfalso
          have : |max s.lng p.lng - min s.lng p.lng| ≤ 0 := by
            rw [abs_of_nonpos (by linarith)]; linarith [min_le_max (a := s.lng) (b := p.lng)]
          linarith [hcond.1]
        · exact hlt
      have hylt : min s.lat p.lat < max s.lat p.lat := by
        rcases le_or_lt (max s.lat p.lat) (min s.lat p.lat) with hle | hlt
        · exfalso
          have : |max s.lat p.lat - min s.lat p.lat| ≤ 0 := by
            rw [abs_of_nonpos (by linarith)]; linarith [min_le_max (a := s.lat) (b := p.lat)]
          linarith [hcond.2]
        · exact hlt
      refine ⟨rfl, hxlt, hylt, ?_⟩
      rw [mouseupEmit, hm]
      rfl
  · have hm : mouseup (some s) p = (none, none) := by
      simp only [mouseup]
      rw [if_neg hcond]
    refine ⟨by rw [hm], ?_, ?_⟩
    · rw [hm]
      simp only [Option.isSome_none, Bool.false_eq_true, false_iff]
      rw [hx, hy] at hcond
      exact hcond
    · intro b hb
      rw [hm] at hb
      simp at hb

/-- C3 witness: releasing at (-69.5, -26.5) after starting at (-70, -27)
clears the session and commits the normalized bbox, emitted as its
comma-joined string. -/
theorem mouseup_spec_witness :
    mouseup (some ⟨-70, -27⟩) ⟨-139/2, -53/2⟩ =
      (none, some ⟨-70, -27, -139/2, -53/2⟩) ∧
    mouseupEmit (some ⟨-70, -27⟩) ⟨-139/2, -53/2⟩ =
      some (bboxString ⟨-70, -27, -139/2, -53/2⟩) := by
  have h := mouseup_spec ⟨-70, -27⟩ ⟨-139/2, -53/2⟩
  have hA : 1/1000 < |(Point.mk (-139/2) (-53/2)).lng - (Point.mk (-70) (-27)).lng| ∧
      1/1000 < |(Point.mk (-139/2) (-53/2)).lat - (Point.mk (-70) (-27)).lat| := by
    constructor
    · show (1/1000 : ℚ) < |(-139/2 : ℚ) - (-70)|
      rw [show ((-139/2 : ℚ) - (-70)) = 1/2 by norm_num, abs_of_nonneg (by norm_num)]
      norm_num
    · show (1/1000 : ℚ) < |(-53/2 : ℚ) - (-27)|
      rw [show ((-53/2 : ℚ) - (-27)) = 1/2 by norm_num, abs_of_nonneg (by norm_num)]
      norm_num
  have hsome := h.2.1.mpr hA
  obtain ⟨b, hb⟩ := Option.isSome_iff_exists.mp hsome
  obtain ⟨hbeq, _, _, hemit⟩ := h.2.2 b hb
  have hbval : b = ⟨-70, -27, -139/2, -53/2⟩ := by
    rw [hbeq]
    simp only [Bbox.mk.injEq]
    refine ⟨?_, ?_, ?_, ?_⟩ <;> norm_num [min_def, max_def]
  constructor
  · rw [Prod.ext_iff]
    exact ⟨h.1, by rw [hb, hbval]⟩
  · rw [hbval] at hemit
    exact hemit

/-- A rendering-surface layer: id, type, backing source, and paint
key/value pairs (paint expressions kept as opaque strings). -/
structure Layer where
  id : String
  type : String
  source : String
  paint : List (String × String)
deriving DecidableEq

/-- The rendering surface's registered state: geojson sources (id ↦ data),
paint layers in addition order, and event handlers (event, layer id). -/
structure MapState where
  sources : List (String × List Feature)
  layers : List Layer
  handlers : List (String × String)
deriving DecidableEq

/-- `map.getSource(id)`. -/
def getSource (s : MapState) (id : String) : Option (String × List Feature) :=
  s.sources.find? (fun pr => pr.1 == id)

/-- `map.getSource(id).setData(fc)`. -/
def setSourceData (s : MapState) (id : String) (fc : List Feature) : MapState :=
  { s with sources := s.sources.map (fun pr => if pr.1 == id then (pr.1, fc) else pr) }

/-- `map.addSource(id, { type: 'geojson', data: fc })`. -/
def addSource (s : MapState) (id : String) (fc : List Feature) : MapState :=
  { s with sources := s.sources ++ [(id, fc)] }

/-- `map.addLayer(l)`. -/
def addLayer (s : MapState) (l : Layer) : MapState :=
  { s with layers := s.layers ++ [l] }

/-- `map.on(event, layerId, handler)`. -/
def onEvent (s : MapState) (event layerId : String) : MapState :=
  { s with handlers := s.handlers ++ [(event, layerId)] }

/-- `map.setPaintProperty(layerId, key, v)`: on each layer with that id,
update the key if present, append it otherwise. -/
def setPaintProperty (s : MapState) (layerId key v : String) : MapState :=
  { s with layers := s.layers.map (fun l =>
      if l.id == layerId then
        { l with paint :=
            if l.paint.any (fun kv => kv.1 == key) then
              l.paint.map (fun kv => if kv.1 == key then (kv.1, v) else kv)
            else l.paint ++ [(key, v)] }
      else l) }

/-- The data-driven paint expression `['get', 'color']`. -/
def getColorExpr : String := "get color"

/-- The fill layer added for slope-cells (fill-color by feature, 0.7
opacity). -/
def slopeFillLayer : Layer :=
  { id := "slope-cells", type := "fill", source := "slope-cells",
    paint := [("fill-color", getColorExpr), ("fill-opacity", "0.7")] }

/-- The outline layer added for slope-cells. -/
def slopeOutlineLayer : Layer :=
  { id := "slope-cells-outline", type := "line", source := "slope-cells",
    paint := [("line-color", "rgba(0,0,0,0.1)"), ("line-width", "0.3")] }

/-- The slope-cells upsert branch of MapView.jsx: when the source exists,
replace its data and re-set the fill-color paint property; otherwise
create the source, the fill and outline layers, and the click /
mouseenter / mouseleave handlers. -/
def upsertSlopeCells (s : MapState) (fc : List Feature) : MapState :=
  if (getSource s "slope-cells").isSome then
    setPaintProperty (setSourceData s "slope-cells" fc)
      "slope-cells" "fill-color" getColorExpr
  else
    onEvent (onEvent (onEvent
      (addLayer (addLayer (addSource s "slope-cells" fc) slopeFillLayer) slopeOutlineLayer)
      "click" "slope-cells") "mouseenter" "slope-cells") "mouseleave" "slope-cells"

/-- Mapping a function that fixes every element of a list is the
identity. -/
theorem map_id_of_mem {α : Type} (l : List α) (f : α → α) (h : ∀ x ∈ l, f x = x) :
    l.map f = l := by
  induction l with
  | nil => rfl
  | cons a t ih =>
    simp only [List.map_cons]
    rw [h a (by simp), ih fun x hx => h x (by simp [hx])]

/-- `find?` skips a prefix on which it fails. -/
theorem find?_append_none {α : Type} (l₁ l₂ : List α) (p : α → Bool)
    (h : l₁.find? p = none) : (l₁ ++ l₂).find? p = l₂.find? p := by
  induction l₁ with
  | nil => simp
  | cons a t ih =>
    rw [List.cons_append]
    cases hpa : p a with
    | true => rw [List.find?_cons, hpa] at h; simp at h
    | false =>
      rw [List.find?_cons, hpa] at h
      rw [List.find?_cons, hpa]
      exact ih h

/-- Replacing the slope-cells source's data touches no other source. -/
theorem setSourceData_fresh (src : List (String × List Feature)) (L : List Layer)
    (H : List (String × String)) (fc1 fc2 : List Feature)
    (hsrc : ∀ pr ∈ src, pr.1 ≠ "slope-cells") :
    setSourceData ⟨src ++ [("slope-cells", fc1)], L, H⟩ "slope-cells" fc2 =
      ⟨src ++ [("slope-cells", fc2)], L, H⟩ := by
  have hmap : (src ++ [("slope-cells", fc1)]).map
      (fun pr => if pr.1 == "slope-cells" then (pr.1, fc2) else pr) =
      src ++ [("slope-cells", fc2)] := by
    rw [List.map_append]
    congr 1
    · exact map_id_of_mem _ _ (by
        intro x hx
        have hne : (x.1 == "slope-cells") = false := beq_eq_false_iff_ne.mpr (hsrc x hx)
        simp [hne])
  show MapState.mk ((src ++ [("slope-cells", fc1)]).map _) L H = _
  rw [hmap]

/-- Re-setting the fill-color paint property to the value it was created
with leaves the layer list unchanged. -/
theorem setPaint_fresh (src : List (String × List Feature)) (L0 : List Layer)
    (H : List (String × String)) (hlay : ∀ l ∈ L0, l.id ≠ "slope-cells") :
    setPaintProperty ⟨src, L0 ++ [slopeFillLayer, slopeOutlineLayer], H⟩
        "slope-cells" "fill-color" getColorExpr =
      ⟨src, L0 ++ [slopeFillLayer, slopeOutlineLayer], H⟩ := by
  have hmap : (L0 ++ [slopeFillLayer, slopeOutlineLayer]).map
      (fun l => if l.id == "slope-cells" then
        { l with paint :=
            if l.paint.any (fun kv => kv.1 == "fill-color") then
              l.paint.map (fun kv => if kv.1 == "fill-color" then (kv.1, getColorExpr) else kv)
            else l.paint ++ [("fill-color", getColorExpr)] }
      else l) = L0 ++ [slopeFillLayer, slopeOutlineLayer] := by
    rw [List.map_append]
    congr 1
    · exact map_id_of_mem _ _ (by
        intro l hl
        have hne : (l.id == "slope-cells") = false := beq_eq_false_iff_ne.mpr (hlay l hl)
        simp [hne])
  show MapState.mk src ((L0 ++ [slopeFillLayer, slopeOutlineLayer]).map _) H = _
  rw [hmap]

/-- C4: starting from a surface with nothing registered for slope-cells,
upserting fc1 and then fc2 leaves exactly one slope-cells source holding
fc2, exactly one fill layer, one outline layer and one click/mouseenter/
mouseleave handler set for slope-cells; the second upsert replaces only
the source's data (layers and handlers are untouched), and any further
upsert never grows the layer, handler or source counts. -/
theorem upsert_idempotent (s0 : MapState) (fc1 fc2 : List Feature)
    (hsrc : ∀ pr ∈ s0.sources, pr.1 ≠ "slope-cells")
    (hlay : ∀ l ∈ s0.layers, l.id ≠ "slope-cells" ∧ l.id ≠ "slope-cells-outline")
    (hh : ∀ pr ∈ s0.handlers, pr.2 ≠ "slope-cells") :
    (upsertSlopeCells (upsertSlopeCells s0 fc1) fc2).sources.filter
        (fun pr => pr.1 == "slope-cells") = [("slope-cells", fc2)] ∧
    (upsertSlopeCells (upsertSlopeCells s0 fc1) fc2).layers.filter
        (fun l => l.id == "slope-cells") = [slopeFillLayer] ∧
    (upsertSlopeCells (upsertSlopeCells s0 fc1) fc2).layers.filter
        (fun l => l.id == "slope-cells-outline") = [slopeOutlineLayer] ∧
    (upsertSlopeCells (upsertSlopeCells s0 fc1) fc2).handlers.filter
        (fun pr => pr.2 == "slope-cells") =
      [("click", "slope-cells"), ("mouseenter", "slope-cells"),
       ("mouseleave", "slope-cells")] ∧
    (upsertSlopeCells (upsertSlopeCells s0 fc1) fc2).layers =
      (upsertSlopeCells s0 fc1).layers ∧
    (upsertSlopeCells (upsertSlopeCells s0 fc1) fc2).handlers =
      (upsertSlopeCells s0 fc1).handlers ∧
    (∀ fc3,
      (upsertSlopeCells (upsertSlopeCells (upsertSlopeCells s0 fc1) fc2) fc3).layers =
        (upsertSlopeCells (upsertSlopeCells s0 fc1) fc2).layers ∧
      (upsertSlopeCells (upsertSlopeCells (upsertSlopeCells s0 fc1) fc2) fc3).handlers =
        (upsertSlopeCells (upsertSlopeCells s0 fc1) fc2).handlers ∧
      (upsertSlopeCells (upsertSlopeCells (upsertSlopeCells s0 fc1) fc2) fc3).sources.length =
        (upsertSlopeCells (upsertSlopeCells s0 fc1) fc2).sources.length) := by
  have hfind0 : s0.sources.find? (fun pr => pr.1 == "slope-cells") = none := by
    apply List.find?_eq_none.mpr
    intro x hx
    simpa using hsrc x hx
  have hg0 : getSource s0 "slope-cells" = none := hfind0
  have hs1 : upsertSlopeCells s0 fc1 =
      ⟨s0.sources ++ [("slope-cells", fc1)],
       s0.layers ++ [slopeFillLayer, slopeOutlineLayer],
       s0.handlers ++ [("click", "slope-cells"), ("mouseenter", "slope-cells"),
         ("mouseleave", "slope-cells")]⟩ := by
    rw [upsertSlopeCells, hg0]
    simp [addSource, addLayer, onEvent]
  have hfind1 : (upsertSlopeCells s0 fc1).sources.find?
      (fun pr => pr.1 == "slope-cells") = some ("slope-cells", fc1) := by
    rw [hs1]
    show (s0.sources ++ [("slope-cells", fc1)]).find? (fun pr => pr.1 == "slope-cells") = _
    rw [find?_append_none _ _ _ hfind0]
    simp [List.find?_cons]
  have hg1 : (getSource (upsertSlopeCells s0 fc1) "slope-cells").isSome := by
    show ((upsertSlopeCells s0 fc1).sources.find? (fun pr => pr.1 == "slope-cells")).isSome
    rw [hfind1]
    rfl
  have hs2 : upsertSlopeCells (upsertSlopeCells s0 fc1) fc2 =
      ⟨s0.sources ++ [("slope-cells", fc2)],
       s0.layers ++ [slopeFillLayer, slopeOutlineLayer],
       s0.handlers ++ [("click", "slope-cells"), ("mouseenter", "slope-cells"),
         ("mouseleave", "slope-cells")]⟩ := by
    rw [upsertSlopeCells, if_pos hg1, hs1]
    rw [setSourceData_fresh s0.sources _ _ fc1 fc2 hsrc]
    rw [setPaint_fresh _ s0.layers _ fun l hl => (hlay l hl).1]
  have hfilsrc : s0.sources.filter (fun pr => pr.1 == "slope-cells") = [] := by
    rw [List.filter_eq_nil_iff]
    intro x hx
    simpa using hsrc x hx
  have hfillay : s0.layers.filter (fun l => l.id == "slope-cells") = [] := by
    rw [List.filter_eq_nil_iff]
    intro l hl
    simpa using (hlay l hl).1
  have houtlay : s0.layers.filter (fun l => l.id == "slope-cells-outline") = [] := by
    rw [List.filter_eq_nil_iff]
    intro l hl
    simpa using (hlay l hl).2
  have hhand : s0.handlers.filter (fun pr => pr.2 == "slope-cells") = [] := by
    rw [List.filter_eq_nil_iff]
    intro x hx
    simpa using hh x hx
  have hfind2 : (upsertSlopeCells (upsertSlopeCells s0 fc1) fc2).sources.find?
      (fun pr => pr.1 == "slope-cells") = some ("slope-cells", fc2) := by
    rw [hs2]
    show (s0.sources ++ [("slope-cells", fc2)]).find? (fun pr => pr.1 == "slope-cells") = _
    rw [find?_append_none _ _ _ hfind0]
    simp [List.find?_cons]
  have hg2 : (getSource (upsertSlopeCells (upsertSlopeCells s0 fc1) fc2)
      "slope-cells").isSome := by
    show ((upsertSlopeCells (upsertSlopeCells s0 fc1) fc2).sources.find?
      (fun pr => pr.1 == "slope-cells")).isSome
    rw [hfind2]
    rfl
  refine ⟨?_, ?_, ?_, ?_, ?_, ?_, ?_⟩
  · rw [hs2]
    show (s0.sources ++ [("slope-cells", fc2)]).filter (fun pr => pr.1 == "slope-cells") = _
    rw [List.filter_append, hfilsrc]
    simp
  · rw [hs2]
    show (s0.layers ++ [slopeFillLayer, slopeOutlineLayer]).filter
      (fun l => l.id == "slope-cells") = _
    rw [List.filter_append, hfillay]
    decide
  · rw [hs2]
    show (s0.layers ++ [slopeFillLayer, slopeOutlineLayer]).filter
      (fun l => l.id == "slope-cells-outline") = _
    rw [List.filter_append, houtlay]
    decide
  · rw [hs2]
    show (s0.handlers ++ [("click", "slope-cells"), ("mouseenter", "slope-cells"),
      ("mouseleave", "slope-cells")]).filter (fun pr => pr.2 == "slope-cells") = _
    rw [List.filter_append, hhand]
    decide
  · rw [hs2, hs1]
  · rw [hs2, hs1]
  · intro fc3
    rw [upsertSlopeCells, if_pos hg2, hs2]
    rw [setSourceData_fresh s0.sources _ _ fc2 fc3 hsrc]
    rw [setPaint_fresh _ s0.layers _ fun l hl => (hlay l hl).1]
    refine ⟨rfl, rfl, by simp⟩

/-- A concrete feature collection for the C4 witness. -/
def fcW : List Feature := [⟨[], 1, "#ff0000"⟩]

/-- C4 witness: on an empty surface, upserting `[]` then `fcW` registers
exactly one slope-cells source holding `fcW`, and the second upsert leaves
the layer list untouched. -/
theorem upsert_idempotent_witness :
    (upsertSlopeCells (upsertSlopeCells ⟨[], [], []⟩ []) fcW).sources.filter
        (fun pr => pr.1 == "slope-cells") = [("slope-cells", fcW)] ∧
    (upsertSlopeCells (upsertSlopeCells ⟨[], [], []⟩ []) fcW).layers =
      (upsertSlopeCells ⟨[], [], []⟩ []).layers := by
  have h := upsert_idempotent ⟨[], [], []⟩ [] fcW (by simp) (by simp) (by simp)
  exact ⟨h.1, h.2.2.2.2.1⟩

/-- `handleDeleteRange` (SlopeMapPanel.jsx): a no-op when the table already
has 2 or fewer entries, else `ranges.filter((_, i) => i !== idx)`. -/
def handleDeleteRange (ranges : List Range) (idx : ℕ) : List Range :=
  if ranges.length ≤ 2 then ranges
  else ((ranges.enum).filter (fun pr => pr.1 != idx)).map Prod.snd

/-- `handleAddRange` (SlopeMapPanel.jsx): `lastMax =
ranges[ranges.length - 1]?.max || 100` — with JS `||`, an absent table and
a last max of 0 both fall back to 100 — then append
`{min: lastMax, max: lastMax + 25, color: '#ff6600', label}`. -/
def handleAddRange (ranges : List Range) : List Range :=
  let lastMax : ℚ :=
    match ranges.getLast? with
    | none => 100
    | some r => if r.max = 0 then 100 else r.max
  ranges ++ [{ min := lastMax, max := lastMax + 25, color := "#ff6600",
               label := ratStr lastMax ++ " – " ++ ratStr (lastMax + 25) ++ "%" }]

/-- `parseFloat(val) || 0`: a parse failure (NaN, modelled as `none`) and
a parsed 0 both store 0. -/
def coerceNum (parsed : Option ℚ) : ℚ :=
  match parsed with
  | none => 0
  | some q => if q = 0 then 0 else q

/-- `handleRangeMinChange` (SlopeMapPanel.jsx): store the coerced min and
rederive the label (`> min%` when the new min is ≥ 75, else `min – max%`
with the unchanged max); the in-range index assignment is `List.set`. -/
def handleRangeMinChange (ranges : List Range) (idx : ℕ) (parsed : Option ℚ) : List Range :=
  match ranges.get? idx with
  | none => ranges
  | some old =>
      let num := coerceNum parsed
      ranges.set idx
        { old with
          min := num,
          label := if 75 ≤ num then "> " ++ ratStr num ++ "%"
                   else ratStr num ++ " – " ++ ratStr old.max ++ "%" }

/-- `handleRangeMaxChange` (SlopeMapPanel.jsx): store the coerced max and
rederive the label, the open-ended form chosen by the unchanged min. -/
def handleRangeMaxChange (ranges : List Range) (idx : ℕ) (parsed : Option ℚ) : List Range :=
  match ranges.get? idx with
  | none => ranges
  | some old =>
      let num := coerceNum parsed
      ranges.set idx
        { old with
          max := num,
          label := if 75 ≤ old.min then "> " ++ ratStr old.min ++ "%"
                   else ratStr old.min ++ " – " ++ ratStr num ++ "%" }

/-- Filtering an enumeration for an index below its start keeps every
element. -/
theorem enumFrom_filter_ne_small {α : Type} :
    ∀ (l : List α) (m j : ℕ), j < m →
      ((List.enumFrom m l).filter (fun pr => pr.1 != j)).map Prod.snd = l := by
  intro l
  induction l with
  | nil => intro m j h; rfl
  | cons a t ih =>
    intro m j h
    rw [List.enumFrom, List.filter_cons]
    have hcond : (((m, a) : ℕ × α).1 != j) = true := bne_iff_ne.mpr (by omega)
    rw [if_pos hcond]
    simp only [List.map_cons]
    rw [ih (m + 1) j (by omega)]

/-- Filtering the index `k + i` out of the enumeration started at `k`
removes exactly the element at offset `i`. -/
theorem enumFrom_filter_eq {α : Type} :
    ∀ (l : List α) (k i : ℕ),
      ((List.enumFrom k l).filter (fun pr => pr.1 != (k + i))).map Prod.snd =
        l.take i ++ l.drop (i + 1) := by
  intro l
  induction l with
  | nil => intro k i; simp
  | cons a t ih =>
    intro k i
    rw [List.enumFrom, List.filter_cons]
    cases i with
    | zero =>
      have hcond : ¬ ((((k, a) : ℕ × α).1 != (k + 0)) = true) := by simp
      rw [if_neg hcond]
      simp only [List.take_zero, List.nil_append, List.drop_succ_cons, List.drop_zero]
      exact enumFrom_filter_ne_small t (k + 1) (k + 0) (by omega)
    | succ i =>
      have hcond : (((k, a) : ℕ × α).1 != (k + (i + 1))) = true := bne_iff_ne.mpr (by omega)
      rw [if_pos hcond]
      simp only [List.map_cons, List.take_succ_cons, List.drop_succ_cons, List.cons_append]
      congr 1
      rw [show k + (i + 1) = (k + 1) + i from by omega] at hcond ⊢
      exact ih (k + 1) i

/-- C8: `delete(i)` is a no-op when the table has 2 or fewer entries;
otherwise it removes exactly entry `i`, preserving the order of the rest;
so a table of length ≥ 2 never drops below 2, and the add and edit
operations never shrink the table either. -/
theorem handleDeleteRange_spec (t : List Range) (idx : ℕ) :
    (t.length ≤ 2 → handleDeleteRange t idx = t) ∧
    (2 < t.length → handleDeleteRange t idx = t.take idx ++ t.drop (idx + 1)) ∧
    (2 ≤ t.length → 2 ≤ (handleDeleteRange t idx).length) ∧
    (∀ parsed, (handleRangeMinChange t idx parsed).length = t.length ∧
               (handleRangeMaxChange t idx parsed).length = t.length) ∧
    (handleAddRange t).length = t.length + 1 := by
  have hdel : 2 < t.length → handleDeleteRange t idx = t.take idx ++ t.drop (idx + 1) := by
    intro h
    rw [handleDeleteRange, if_neg (by omega)]
    have := enumFrom_filter_eq t 0 idx
    simpa [List.enum] using this
  refine ⟨?_, hdel, ?_, ?_, ?_⟩
  · intro h
    rw [handleDeleteRange, if_pos h]
  · intro h
    by_cases h2 : t.length ≤ 2
    · rw [handleDeleteRange, if_pos h2]
      exact h
    · rw [hdel (by omega)]
      simp only [List.length_append, List.length_take, List.length_drop]
      omega
  · intro parsed
    constructor
    · cases hidx : t.get? idx with
      | none =>
        simp only [handleRangeMinChange]
        rw [hidx]
      | some old =>
        simp only [handleRangeMinChange]
        rw [hidx]
        simp
    · cases hidx : t.get? idx with
      | none =>
        simp only [handleRangeMaxChange]
        rw [hidx]
      | some old =>
        simp only [handleRangeMaxChange]
        rw [hidx]
        simp
  · simp [handleAddRange]

/-- C8 witness: deleting from a length-2 table is a no-op; deleting entry 1
of the 7-entry default table removes exactly that entry and keeps length
≥ 2. -/
theorem handleDeleteRange_spec_witness :
    handleDeleteRange c1Ranges 0 = c1Ranges ∧
    handleDeleteRange DEFAULT_RANGES 1 = DEFAULT_RANGES.take 1 ++ DEFAULT_RANGES.drop 2 ∧
    2 ≤ (handleDeleteRange DEFAULT_RANGES 1).length :=
  ⟨(handleDeleteRange_spec c1Ranges 0).1 (by decide),
   (handleDeleteRange_spec DEFAULT_RANGES 1).2.1 (by decide),
   (handleDeleteRange_spec DEFAULT_RANGES 1).2.2.1 (by decide)⟩

/-- A table whose last range has max 0 (reachable: an unparsable max edit
stores 0). -/
def addCexTable : List Range := [⟨0, 3, "#38a800", "0 – 3%"⟩, ⟨3, 0, "#267300", "3 – 0%"⟩]

/-- C9 counterexample: on a non-empty table whose last max is 0, the JS
`|| 100` default also fires, so the appended range's min is 100, not the
previous last range's max. -/
theorem handleAddRange_zero_max_cex :
    (addCexTable.getLast?).map Range.max = some 0 ∧
    ((handleAddRange addCexTable).get? 2).map Range.min = some 100 ∧
    (100 : ℚ) ≠ 0 := by
  refine ⟨rfl, rfl, by decide⟩

/-- C9 (amended): `add()` appends exactly one range, leaving the existing
entries unchanged and in order; the new range's min is the previous last
range's max when that max is nonzero, and 100 when the table is empty or
the last max is 0; its max is min + 25, its color the fixed '#ff6600', and
its label is derived from the two bounds. -/
theorem handleAddRange_spec (t : List Range) :
    (handleAddRange t).take t.length = t ∧
    (handleAddRange t).length = t.length + 1 ∧
    (t.getLast? = none →
      (handleAddRange t).get? t.length =
        some ⟨100, 100 + 25, "#ff6600",
              ratStr 100 ++ " – " ++ ratStr (100 + 25) ++ "%"⟩) ∧
    (∀ r, t.getLast? = some r → r.max ≠ 0 →
      (handleAddRange t).get? t.length =
        some ⟨r.max, r.max + 25, "#ff6600",
              ratStr r.max ++ " – " ++ ratStr (r.max + 25) ++ "%"⟩) ∧
    (∀ r, t.getLast? = some r → r.max = 0 →
      (handleAddRange t).get? t.length =
        some ⟨100, 100 + 25, "#ff6600",
              ratStr 100 ++ " – " ++ ratStr (100 + 25) ++ "%"⟩) := by
  refine ⟨?_, ?_, ?_, ?_, ?_⟩
  · simp only [handleAddRange]
    exact List.take_left t _
  · simp [handleAddRange]
  · intro h
    simp only [handleAddRange, h]
    rw [List.get?_concat_length]
  · intro r hr hmax
    simp only [handleAddRange, hr]
    rw [if_neg hmax]
    rw [List.get?_concat_length]
  · intro r hr hmax
    simp only [handleAddRange, hr]
    rw [if_pos hmax]
    rw [List.get?_concat_length]

/-- C9 witness for the amended claim: adding to the default table (last
max 999 ≠ 0) appends the 999–1024 range and keeps the existing entries. -/
theorem handleAddRange_spec_witness :
    (handleAddRange DEFAULT_RANGES).take 7 = DEFAULT_RANGES ∧
    (handleAddRange DEFAULT_RANGES).get? 7 =
      some ⟨999, 999 + 25, "#ff6600",
            ratStr 999 ++ " – " ++ ratStr (999 + 25) ++ "%"⟩ := by
  have h := handleAddRange_spec DEFAULT_RANGES
  exact ⟨h.1, h.2.2.2.1 ⟨75, 999, "#ff0000", "> 75%"⟩ (by decide) (by decide)⟩

/-- C10: `editMin(i, v)` and `editMax(i, v)` store `parseFloat(v) || 0` —
an unparsable input (NaN, modelled `none`) stores 0, never NaN — update
that entry's bound and its rederived label, and leave every other entry
of the table unchanged. -/
theorem handleRangeEdit_spec (t : List Range) (idx : ℕ) (old : Range)
    (hidx : t.get? idx = some old) :
    ((handleRangeMinChange t idx none).get? idx =
      some { old with
             min := 0,
             label := ratStr 0 ++ " – " ++ ratStr old.max ++ "%" }) ∧
    (∀ q, (handleRangeMinChange t idx (some q)).get? idx =
      some { old with
             min := q,
             label := if 75 ≤ q then "> " ++ ratStr q ++ "%"
                      else ratStr q ++ " – " ++ ratStr old.max ++ "%" }) ∧
    ((handleRangeMaxChange t idx none).get? idx =
      some { old with
             max := 0,
             label := if 75 ≤ old.min then "> " ++ ratStr old.min ++ "%"
                      else ratStr old.min ++ " – " ++ ratStr 0 ++ "%" }) ∧
    (∀ q, (handleRangeMaxChange t idx (some q)).get? idx =
      some { old with
             max := q,
             label := if 75 ≤ old.min then "> " ++ ratStr old.min ++ "%"
                      else ratStr old.min ++ " – " ++ ratStr q ++ "%" }) ∧
    (∀ parsed j, j ≠ idx →
      (handleRangeMinChange t idx parsed).get? j = t.get? j ∧
      (handleRangeMaxChange t idx parsed).get? j = t.get? j) := by
  obtain ⟨hlt, -⟩ := List.get?_eq_some.mp hidx
  have hco : ∀ q : ℚ, coerceNum (some q) = q := by
    intro q
    by_cases hq : q = 0 <;> simp [coerceNum, hq]
  refine ⟨?_, ?_, ?_, ?_, ?_⟩
  · simp only [handleRangeMinChange]
    rw [hidx]
    simp only [coerceNum]
    rw [List.get?_set_eq_of_lt _ hlt]
    rw [if_neg (by decide : ¬ ((75 : ℚ) ≤ 0))]
  · intro q
    simp only [handleRangeMinChange]
    rw [hidx]
    simp only [hco]
    rw [List.get?_set_eq_of_lt _ hlt]
  · simp only [handleRangeMaxChange]
    rw [hidx]
    simp only [coerceNum]
    rw [List.get?_set_eq_of_lt _ hlt]
  · intro q
    simp only [handleRangeMaxChange]
    rw [hidx]
    simp only [hco]
    rw [List.get?_set_eq_of_lt _ hlt]
  · intro parsed j hj
    constructor
    · simp only [handleRangeMinChange]
      rw [hidx]
      exact List.get?_set_ne _ _ (Ne.symm hj)
    · simp only [handleRangeMaxChange]
      rw [hidx]
      exact List.get?_set_ne _ _ (Ne.symm hj)

/-- C10 witness: an unparsable min edit on entry 0 of the default table
stores min 0 with the rederived label and leaves entry 1 untouched. -/
theorem handleRangeEdit_spec_witness :
    (handleRangeMinChange DEFAULT_RANGES 0 none).get? 0 =
      some ⟨0, 3, "#38a800", ratStr 0 ++ " – " ++ ratStr 3 ++ "%"⟩ ∧
    (handleRangeMinChange DEFAULT_RANGES 0 none).get? 1 = DEFAULT_RANGES.get? 1 := by
  have h := handleRangeEdit_spec DEFAULT_RANGES 0 ⟨0, 3, "#38a800", "0 – 3%"⟩ (by decide)
  exact ⟨h.1, (h.2.2.2.2 none 1 (by decide)).1⟩
